import Mathlib

/-!
Shallow embedding of `src/FeatureBuffer.hh`: a bounds-checked view class
`FeatureVec` over one feature vector, and a circular buffer `FeatureBuffer`
storing `num_frames` vectors of width `dim` in a flat store, indexed by an
arbitrary signed frame number through a never-negative modulo.

Modelling conventions:
- C++ `int` is modelled as `Int` (no arithmetic here comes near 32-bit
  overflow under the stated preconditions); C++ `%` on `int` is truncated
  remainder, i.e. `Int.tmod`.
- The element type `float` is abstract: the code only stores and reads
  values, so the store is a `List α`; `std::vector<float>(n)` value
  initialisation is modelled by `default` of an `Inhabited` instance.
- A `FeatureVec` holds, in place of the raw pointer `m_ptr`, the offset of
  the pointed-to element inside the owning store (`none` models `NULL`),
  and reads and writes take the store explicitly.
- A thrown `std::string` becomes the `boundsError` outcome; dereferencing
  `NULL` or a location outside the store (C++ undefined behaviour) becomes
  the explicit `undefined` outcome; a failed `assert` halts, so `resize`
  returns `Option` with `none` for the assertion-failure halt.
-/

namespace FeatureBufferModel

variable {α : Type}

/-- Outcome of a single access through the embedding: a normal result,
a thrown bounds error carrying the message, or C++ undefined behaviour. -/
inductive AccessResult (β : Type) where
  | value (a : β)
  | boundsError (msg : String)
  | undefined
deriving DecidableEq, Repr

/-- Embedding of class `FeatureVec`: `m_ptr` is the offset of the base
element inside the owning store (`none` for the `NULL` of the default
constructor), `m_dim` is the dimension field. -/
structure FeatureVec where
  m_ptr : Option Nat
  m_dim : Int
deriving DecidableEq, Repr

/-- Embedding of `FeatureVec() : m_ptr(NULL), m_dim(0)`. -/
def FeatureVec.mkDefault : FeatureVec := ⟨none, 0⟩

/-- Embedding of `int FeatureVec::dim() const`. -/
def FeatureVec.dim (v : FeatureVec) : Int := v.m_dim

/-- Embedding of `const float &FeatureVec::operator[](int) const`: bounds
check first (`throw std::string("FeatureVec out of bounds")`), then the
dereference `m_ptr[index]`, which is undefined behaviour on a `NULL` or
out-of-store pointer. -/
def FeatureVec.get (v : FeatureVec) (store : List α) (index : Int) :
    AccessResult α :=
  if index < 0 ∨ index ≥ v.m_dim then
    .boundsError "FeatureVec out of bounds"
  else
    match v.m_ptr with
    | none => .undefined
    | some base =>
      match store[base + index.toNat]? with
      | some a => .value a
      | none => .undefined

/-- Embedding of `float &FeatureVec::operator[](int)` used as the target of
an assignment: the same bounds check, then the store is updated at
`m_ptr[index]`. Writing through a `NULL` or out-of-store pointer is
undefined behaviour. -/
def FeatureVec.set (v : FeatureVec) (store : List α) (index : Int) (a : α) :
    AccessResult (List α) :=
  if index < 0 ∨ index ≥ v.m_dim then
    .boundsError "FeatureVec out of bounds"
  else
    match v.m_ptr with
    | none => .undefined
    | some base =>
      if base + index.toNat < store.length then
        .value (store.set (base + index.toNat) a)
      else
        .undefined

/-- Embedding of `int FeatureBuffer::modulo(int a, int b) const`:
`int result = a % b; if (result < 0) result += b; return result;`
with C++ `%` on `int` being truncated remainder `Int.tmod`. -/
def modulo (a b : Int) : Int :=
  let result := Int.tmod a b
  if result < 0 then result + b else result

/-- Embedding of class `FeatureBuffer`: the fields `m_dim`, `m_num_frames`
and the flat store `m_buffer`. -/
structure FeatureBuffer (α : Type) where
  m_dim : Int
  m_num_frames : Int
  m_buffer : List α
deriving DecidableEq, Repr

/-- Embedding of `FeatureBuffer() : m_dim(1), m_num_frames(1), m_buffer(1)`:
the store holds one value-initialised element. -/
def FeatureBuffer.mkDefault [Inhabited α] : FeatureBuffer α :=
  ⟨1, 1, [default]⟩

/-- Embedding of `std::vector::resize(n)`: truncates to the first `n`
elements when shrinking, keeps all elements and appends value-initialised
ones when growing. -/
def vectorResize [Inhabited α] (l : List α) (n : Nat) : List α :=
  if n ≤ l.length then l.take n
  else l ++ List.replicate (n - l.length) default

/-- Embedding of `void FeatureBuffer::resize(int num_frames, int dim)`:
`assert(num_frames > 0); assert(dim > 0);` halts on violation (`none`),
otherwise the fields are set and the store resized to
`m_num_frames * m_dim`. -/
def FeatureBuffer.resize [Inhabited α] (buf : FeatureBuffer α)
    (num_frames dim : Int) : Option (FeatureBuffer α) :=
  if num_frames > 0 ∧ dim > 0 then
    some { m_dim := dim, m_num_frames := num_frames,
           m_buffer := vectorResize buf.m_buffer (num_frames * dim).toNat }
  else
    none

/-- Embedding of `int FeatureBuffer::dim() const`. -/
def FeatureBuffer.dim (buf : FeatureBuffer α) : Int := buf.m_dim

/-- Embedding of `int FeatureBuffer::num_frames() const`. -/
def FeatureBuffer.num_frames (buf : FeatureBuffer α) : Int := buf.m_num_frames

/-- Embedding of `FeatureBuffer::operator[](int frame)` (the const and the
mutable overload perform the identical computation):
`int index = modulo(frame, m_num_frames);
 return FeatureVec(&m_buffer[index * m_dim], m_dim);`.
The returned view records the offset `index * m_dim` of the slot base. -/
def FeatureBuffer.getVec (buf : FeatureBuffer α) (frame : Int) : FeatureVec :=
  let index := modulo frame buf.m_num_frames
  ⟨some (index * buf.m_dim).toNat, buf.m_dim⟩

/-- Reading `buffer[frame][index]`: the view returned by `operator[]`
applied to the buffer store. -/
def FeatureBuffer.read (buf : FeatureBuffer α) (frame index : Int) :
    AccessResult α :=
  (buf.getVec frame).get buf.m_buffer index

/-- Writing `buffer[frame][index] = v`: the mutable view returned by
`operator[]`, written through; the buffer with the updated store is the
result. -/
def FeatureBuffer.write (buf : FeatureBuffer α) (frame index : Int) (v : α) :
    AccessResult (FeatureBuffer α) :=
  match (buf.getVec frame).set buf.m_buffer index v with
  | .value s => .value { buf with m_buffer := s }
  | .boundsError m => .boundsError m
  | .undefined => .undefined

/-- The physical position inside the flat store addressed by
`buffer[frame][index]`, exactly as the code computes it:
base offset `modulo(frame, m_num_frames) * m_dim` plus `index`. -/
def slotOffset (buf : FeatureBuffer α) (frame index : Int) : Nat :=
  (modulo frame buf.m_num_frames * buf.m_dim).toNat + index.toNat

/-- Well-formedness of a buffer state: positive shape fields and the store
length equal to `m_num_frames * m_dim` (the documented invariant). -/
def FeatureBuffer.wf (buf : FeatureBuffer α) : Prop :=
  0 < buf.m_dim ∧ 0 < buf.m_num_frames ∧
    (buf.m_buffer.length : Int) = buf.m_num_frames * buf.m_dim

/-- The storage-length invariant alone: `storage.length == dim * num_frames`. -/
def FeatureBuffer.lenInv (buf : FeatureBuffer α) : Prop :=
  (buf.m_buffer.length : Int) = buf.m_num_frames * buf.m_dim

/-- A view is valid for a store when its base offset is a real offset and
its `m_dim` elements all lie inside the store. -/
def FeatureVec.validFor (v : FeatureVec) (store : List α) : Prop :=
  ∃ base, v.m_ptr = some base ∧ base + v.m_dim.toNat ≤ store.length

/- ### Arithmetic facts about `modulo` -/

/-- Truncated remainder by a positive modulus is strictly above `-b`. -/
lemma tmod_gt_neg (a b : Int) (hb : 0 < b) : -b < Int.tmod a b := by
  rcases le_or_lt 0 a with h | h
  · have := Int.tmod_nonneg b h
    omega
  · have h1 : Int.tmod (-a) b = -Int.tmod a b := by
      rw [Int.tmod_def, Int.tmod_def, Int.neg_tdiv]
      ring
    have h2 : 0 ≤ Int.tmod (-a) b := Int.tmod_nonneg b (by omega)
    have h3 : Int.tmod (-a) b < b := Int.tmod_lt_of_pos _ hb
    omega

/-- For a positive modulus, the never-negative `modulo` of the code agrees
with the mathematical (floored / Euclidean) remainder `Int.emod`. -/
lemma modulo_eq_emod (a b : Int) (hb : 0 < b) : modulo a b = a % b := by
  have hd : (a - Int.tmod a b) % b = 0 := by
    have h := Int.tmod_add_tdiv a b
    have : a - Int.tmod a b = b * Int.tdiv a b := by omega
    rw [this]
    exact Int.mul_emod_right b _
  have hcong : Int.tmod a b % b = a % b := by
    rw [Int.emod_eq_emod_iff_emod_sub_eq_zero]
    have heq : Int.tmod a b - a = -(a - Int.tmod a b) := by ring
    rw [heq]
    exact Int.emod_eq_zero_of_dvd ((dvd_neg).mpr (Int.dvd_of_emod_eq_zero hd))
  have hlt : Int.tmod a b < b := Int.tmod_lt_of_pos a hb
  have hgt : -b < Int.tmod a b := tmod_gt_neg a b hb
  unfold modulo
  by_cases hneg : Int.tmod a b < 0
  · simp only [hneg, if_true]
    have : (Int.tmod a b + b) % b = Int.tmod a b % b := by
      have h1 := Int.add_mul_emod_self_left (Int.tmod a b) b 1
      rw [mul_one] at h1
      exact h1
    have hrange : (Int.tmod a b + b) % b = Int.tmod a b + b :=
      Int.emod_eq_of_lt (by omega) (by omega)
    omega
  · simp only [hneg, if_false]
    have hrange : Int.tmod a b % b = Int.tmod a b :=
      Int.emod_eq_of_lt (by omega) (by omega)
    omega

/-- The result of `modulo` with a positive modulus is nonnegative. -/
lemma modulo_nonneg (a b : Int) (hb : 0 < b) : 0 ≤ modulo a b := by
  rw [modulo_eq_emod a b hb]
  exact Int.emod_nonneg a (by omega)

/-- The result of `modulo` with a positive modulus is below the modulus. -/
lemma modulo_lt (a b : Int) (hb : 0 < b) : modulo a b < b := by
  rw [modulo_eq_emod a b hb]
  exact Int.emod_lt_of_pos a hb

/-- Frames congruent modulo a positive modulus map to the same result. -/
lemma modulo_congr (a a2 b : Int) (hb : 0 < b) (h : a % b = a2 % b) :
    modulo a b = modulo a2 b := by
  rw [modulo_eq_emod a b hb, modulo_eq_emod a2 b hb, h]

/- ### Helper lemmas for access through the buffer -/

/-- Arithmetic transfer: an integer interval bound becomes a `Nat` bound on
`toNat` values against a store length. -/
lemma toNat_le_length (x d L : Int) (len : Nat) (hx : 0 ≤ x) (hd : 0 < d)
    (hlen : (len : Int) = L) (hxL : x + d ≤ L) :
    x.toNat + d.toNat ≤ len := by omega

/-- Arithmetic transfer: a strict integer bound on a position inside a slot
becomes a strict `Nat` bound against the store length. -/
lemma toNat_lt_length (x d L i : Int) (len : Nat) (hx : 0 ≤ x) (hi : 0 ≤ i)
    (hid : i < d) (hlen : (len : Int) = L) (hxL : x + d ≤ L) :
    x.toNat + i.toNat < len := by omega

/-- In a well-formed buffer, the slot starting at
`modulo(frame, num_frames) * dim` lies entirely inside the store. -/
lemma slot_base_bound (buf : FeatureBuffer α) (hwf : buf.wf) (frame : Int) :
    (modulo frame buf.m_num_frames * buf.m_dim).toNat + buf.m_dim.toNat ≤
      buf.m_buffer.length := by
  obtain ⟨hd, hn, hl⟩ := hwf
  have hm0 : 0 ≤ modulo frame buf.m_num_frames := modulo_nonneg _ _ hn
  have hmlt : modulo frame buf.m_num_frames < buf.m_num_frames := modulo_lt _ _ hn
  have hx : 0 ≤ modulo frame buf.m_num_frames * buf.m_dim :=
    mul_nonneg hm0 hd.le
  have hstep : (modulo frame buf.m_num_frames + 1) * buf.m_dim ≤
      buf.m_num_frames * buf.m_dim :=
    mul_le_mul_of_nonneg_right (by omega) hd.le
  have hxL : modulo frame buf.m_num_frames * buf.m_dim + buf.m_dim ≤
      buf.m_num_frames * buf.m_dim := by nlinarith
  exact toNat_le_length _ _ _ _ hx hd hl hxL

/-- In a well-formed buffer, the physical position of `buffer[frame][index]`
for an in-range `index` is inside the store. -/
lemma slotOffset_lt (buf : FeatureBuffer α) (hwf : buf.wf) (frame index : Int)
    (hi0 : 0 ≤ index) (hid : index < buf.m_dim) :
    slotOffset buf frame index < buf.m_buffer.length := by
  obtain ⟨hd, hn, hl⟩ := hwf
  have hm0 : 0 ≤ modulo frame buf.m_num_frames := modulo_nonneg _ _ hn
  have hmlt : modulo frame buf.m_num_frames < buf.m_num_frames := modulo_lt _ _ hn
  have hx : 0 ≤ modulo frame buf.m_num_frames * buf.m_dim :=
    mul_nonneg hm0 hd.le
  have hstep : (modulo frame buf.m_num_frames + 1) * buf.m_dim ≤
      buf.m_num_frames * buf.m_dim :=
    mul_le_mul_of_nonneg_right (by omega) hd.le
  have hxL : modulo frame buf.m_num_frames * buf.m_dim + buf.m_dim ≤
      buf.m_num_frames * buf.m_dim := by nlinarith
  exact toNat_lt_length _ _ _ _ _ hx hi0 hid hl hxL

/-- The view returned by `operator[]` on a well-formed buffer is valid for
the buffer store. -/
lemma getVec_validFor (buf : FeatureBuffer α) (hwf : buf.wf) (frame : Int) :
    (buf.getVec frame).validFor buf.m_buffer :=
  ⟨(modulo frame buf.m_num_frames * buf.m_dim).toNat, rfl,
    slot_base_bound buf hwf frame⟩

/-- Unfolding `FeatureVec::operator[]` (read) at an in-range index over a
store position that exists. -/
lemma featureVec_get_value (v : FeatureVec) (store : List α) (index : Int)
    (x : α) (base : Nat) (hi0 : 0 ≤ index) (hid : index < v.m_dim)
    (hptr : v.m_ptr = some base)
    (hx : store[base + index.toNat]? = some x) :
    v.get store index = .value x := by
  simp only [FeatureVec.get, hptr]
  rw [if_neg (by omega), hx]

/-- Unfolding the write through `FeatureVec::operator[]` at an in-range
index whose position is inside the store. -/
lemma featureVec_set_value (v : FeatureVec) (store : List α) (index : Int)
    (a : α) (base : Nat) (hi0 : 0 ≤ index) (hid : index < v.m_dim)
    (hptr : v.m_ptr = some base)
    (hlt : base + index.toNat < store.length) :
    v.set store index a = .value (store.set (base + index.toNat) a) := by
  simp only [FeatureVec.set, hptr]
  rw [if_neg (by omega), if_pos hlt]

/-- A successful write on a well-formed buffer updates exactly the physical
position `slotOffset` and leaves the shape fields unchanged. -/
lemma write_eq (buf : FeatureBuffer α) (frame index : Int) (v : α)
    (hwf : buf.wf) (hi0 : 0 ≤ index) (hid : index < buf.m_dim) :
    buf.write frame index v =
      .value { buf with m_buffer := buf.m_buffer.set (slotOffset buf frame index) v } := by
  have hlt : (modulo frame buf.m_num_frames * buf.m_dim).toNat + index.toNat <
      buf.m_buffer.length := slotOffset_lt buf hwf frame index hi0 hid
  have hset := featureVec_set_value (buf.getVec frame) buf.m_buffer index v
    ((modulo frame buf.m_num_frames * buf.m_dim).toNat) hi0 hid rfl hlt
  simp only [FeatureBuffer.write, hset, slotOffset]

/-- A read on a well-formed buffer at an in-range index returns the store
element at `slotOffset`. -/
lemma read_eq_value (buf : FeatureBuffer α) (frame index : Int) (x : α)
    (hi0 : 0 ≤ index) (hid : index < buf.m_dim)
    (hx : buf.m_buffer[slotOffset buf frame index]? = some x) :
    buf.read frame index = .value x := by
  exact featureVec_get_value (buf.getVec frame) buf.m_buffer index x
    ((modulo frame buf.m_num_frames * buf.m_dim).toNat) hi0 hid rfl hx

/-- Inversion of a successful write: the shape fields are unchanged and the
store is a single `List.set` at a position inside the store. -/
lemma write_value_inv (buf b2 : FeatureBuffer α) (frame index : Int) (v : α)
    (h : buf.write frame index v = .value b2) :
    b2.m_dim = buf.m_dim ∧ b2.m_num_frames = buf.m_num_frames ∧
      ∃ k, k < buf.m_buffer.length ∧ b2.m_buffer = buf.m_buffer.set k v := by
  unfold FeatureBuffer.write at h
  cases hs : (buf.getVec frame).set buf.m_buffer index v with
  | value s =>
    simp only [hs] at h
    have hb : { buf with m_buffer := s } = b2 := by injection h
    subst hb
    unfold FeatureVec.set at hs
    split at hs
    · exact absurd hs (by simp)
    · simp only [FeatureBuffer.getVec] at hs
      split at hs
      · rename_i hlt
        injection hs with hseq
        exact ⟨rfl, rfl, _ + index.toNat, hlt, hseq.symm⟩
      · exact absurd hs (by simp)
  | boundsError m =>
    rw [hs] at h
    simp at h
  | undefined =>
    rw [hs] at h
    simp at h

/-- A successful write preserves well-formedness. -/
lemma wf_write (buf b2 : FeatureBuffer α) (frame index : Int) (v : α)
    (hwf : buf.wf) (h : buf.write frame index v = .value b2) : b2.wf := by
  obtain ⟨hdim, hnum, k, hk, hbuf⟩ := write_value_inv buf b2 frame index v h
  obtain ⟨hd, hn, hl⟩ := hwf
  refine ⟨by omega, by omega, ?_⟩
  rw [hbuf, List.length_set, hdim, hnum]
  exact hl

/-- `std::vector::resize(n)` always leaves the store with exactly `n`
elements. -/
lemma length_vectorResize [Inhabited α] (l : List α) (n : Nat) :
    (vectorResize l n).length = n := by
  unfold vectorResize
  split
  · rename_i h
    rw [List.length_take]
    omega
  · rename_i h
    rw [List.length_append, List.length_replicate]
    omega

/-- Resizing a store to its current length is the identity. -/
lemma vectorResize_length_self [Inhabited α] (l : List α) :
    vectorResize l l.length = l := by
  unfold vectorResize
  rw [if_pos le_rfl, List.take_length]

/- ### Claim theorems -/

/-- Claim C2: for every integer `frame` and every `num_frames > 0`, the
physical slot is computed as `result = frame % num_frames` (truncated `%`)
followed by adding `num_frames` once exactly when the remainder is
negative; the result lies in `[0, num_frames)` and is congruent to `frame`
modulo `num_frames` (it equals the floored, never-negative remainder). -/
theorem modulo_floored (a b : Int) (hb : 0 < b) :
    modulo a b =
      (if Int.tmod a b < 0 then Int.tmod a b + b else Int.tmod a b) ∧
    0 ≤ modulo a b ∧ modulo a b < b ∧ modulo a b % b = a % b := by
  refine ⟨rfl, modulo_nonneg a b hb, modulo_lt a b hb, ?_⟩
  rw [modulo_eq_emod a b hb]
  exact Int.emod_emod_of_dvd a dvd_rfl

/-- Witness for C2 at `frame = -7`, `num_frames = 3`. -/
theorem modulo_floored_witness :
    modulo (-7) 3 =
      (if Int.tmod (-7) 3 < 0 then Int.tmod (-7) 3 + 3 else Int.tmod (-7) 3) ∧
    0 ≤ modulo (-7) 3 ∧ modulo (-7) 3 < 3 ∧ modulo (-7) 3 % 3 = -7 % 3 :=
  modulo_floored (-7) 3 (by decide)

/-- Claim C3: an access through a `FeatureVec` (read or write) raises the
bounds error with its descriptive message exactly when `index < 0` or
`index ≥ dim`; and on a view that is valid for its store, every index in
`[0, dim)` succeeds with a normal value. -/
theorem featureVec_bounds_check (vec : FeatureVec) (store : List α)
    (index : Int) (a : α) :
    ((vec.get store index = .boundsError "FeatureVec out of bounds" ∧
        vec.set store index a = .boundsError "FeatureVec out of bounds") ↔
      (index < 0 ∨ index ≥ vec.m_dim)) ∧
    (vec.validFor store → 0 ≤ index → index < vec.m_dim →
      (∃ x, vec.get store index = .value x) ∧
      (∃ s, vec.set store index a = .value s)) := by
  constructor
  · constructor
    · intro ⟨hg, _⟩
      by_contra hnot
      unfold FeatureVec.get at hg
      rw [if_neg hnot] at hg
      rcases hp : vec.m_ptr with _ | base <;> simp only [hp] at hg
      · exact AccessResult.noConfusion hg
      · rcases hx : store[base + index.toNat]? with _ | x <;>
          simp only [hx] at hg <;> exact AccessResult.noConfusion hg
    · intro h
      unfold FeatureVec.get FeatureVec.set
      rw [if_pos h, if_pos h]
      exact ⟨rfl, rfl⟩
  · intro hv hi0 hid
    obtain ⟨base, hptr, hb⟩ := hv
    have hlt : base + index.toNat < store.length := by omega
    constructor
    · exact ⟨store[base + index.toNat],
        featureVec_get_value vec store index _ base hi0 hid hptr
          (List.getElem?_eq_getElem hlt)⟩
    · exact ⟨store.set (base + index.toNat) a,
        featureVec_set_value vec store index a base hi0 hid hptr hlt⟩

/-- Witness for C3: the view over the two-element store succeeds at index 1
(read and write), applying the theorem at a concrete valid view. -/
theorem featureVec_bounds_check_witness :
    (∃ x, (⟨some 0, 2⟩ : FeatureVec).get ([10, 20] : List Int) 1 =
      .value x) ∧
    (∃ s, (⟨some 0, 2⟩ : FeatureVec).set ([10, 20] : List Int) 1 7 =
      .value s) :=
  (featureVec_bounds_check ⟨some 0, 2⟩ ([10, 20] : List Int) 1 7).2
    ⟨0, rfl, by decide⟩ (by decide) (by decide)

/-- Claim C10: the default-constructed `FeatureVec` (null pointer, dimension
0) reports dimension 0, and every access, read or write, at any integer
index raises the bounds error — never the undefined-behaviour outcome — so
the null pointer is never dereferenced. -/
theorem default_vec_safe (store : List α) (index : Int) (a : α) :
    FeatureVec.mkDefault.dim = 0 ∧
    FeatureVec.mkDefault.get store index =
      .boundsError "FeatureVec out of bounds" ∧
    FeatureVec.mkDefault.set store index a =
      .boundsError "FeatureVec out of bounds" := by
  refine ⟨rfl, ?_, ?_⟩
  · unfold FeatureVec.get
    rw [if_pos]
    show index < 0 ∨ index ≥ (0 : Int)
    omega
  · unfold FeatureVec.set
    rw [if_pos]
    show index < 0 ∨ index ≥ (0 : Int)
    omega

/-- Claim C1: on a well-formed buffer, for congruent frames
`frame ≡ frame2 (mod num_frames)` and an index in `[0, dim)`, writing `v`
through `buffer[frame][index]` and reading `buffer[frame2][index]` returns
`v`; in particular `buffer[-1]` is the same view as
`buffer[num_frames - 1]`. -/
theorem wraparound_write_read (buf : FeatureBuffer α)
    (frame frame2 index : Int) (v : α) (hwf : buf.wf)
    (hcong : frame % buf.m_num_frames = frame2 % buf.m_num_frames)
    (hi0 : 0 ≤ index) (hid : index < buf.m_dim) :
    (∃ b2, buf.write frame index v = .value b2 ∧
      b2.read frame2 index = .value v) ∧
    buf.getVec (-1) = buf.getVec (buf.m_num_frames - 1) := by
  obtain ⟨hd, hn, hl⟩ := id hwf
  constructor
  · refine ⟨_, write_eq buf frame index v hwf hi0 hid, ?_⟩
    have hmod : modulo frame2 buf.m_num_frames = modulo frame buf.m_num_frames :=
      modulo_congr frame2 frame buf.m_num_frames hn hcong.symm
    have hslot :
        slotOffset { buf with m_buffer := buf.m_buffer.set (slotOffset buf frame index) v }
          frame2 index = slotOffset buf frame index := by
      simp only [slotOffset, hmod]
    refine read_eq_value
      { buf with m_buffer := buf.m_buffer.set (slotOffset buf frame index) v }
      frame2 index v hi0 hid ?_
    rw [hslot]
    show (buf.m_buffer.set (slotOffset buf frame index) v)[slotOffset buf frame index]? =
      some v
    rw [List.getElem?_set]
    rw [if_pos rfl, if_pos (slotOffset_lt buf hwf frame index hi0 hid)]
  · have hmod : modulo (-1) buf.m_num_frames =
        modulo (buf.m_num_frames - 1) buf.m_num_frames := by
      apply modulo_congr _ _ _ hn
      have h1 := Int.add_mul_emod_self_left (-1) buf.m_num_frames 1
      rw [mul_one] at h1
      have h2 : -1 + buf.m_num_frames = buf.m_num_frames - 1 := by ring
      rw [h2] at h1
      exact h1.symm
    simp only [FeatureBuffer.getVec, hmod]

/-- Witness for C1 on the buffer `(dim 2, num frames 3)` with congruent
frames 1 and 7 at index 1. -/
theorem wraparound_write_read_witness :
    (∃ b2, (⟨2, 3, [0, 0, 0, 0, 0, 0]⟩ : FeatureBuffer Int).write 1 1 42 =
        .value b2 ∧ b2.read 7 1 = .value 42) ∧
    (⟨2, 3, [0, 0, 0, 0, 0, 0]⟩ : FeatureBuffer Int).getVec (-1) =
      (⟨2, 3, [0, 0, 0, 0, 0, 0]⟩ : FeatureBuffer Int).getVec (3 - 1) :=
  wraparound_write_read ⟨2, 3, [0, 0, 0, 0, 0, 0]⟩ 1 7 1 42
    ⟨by decide, by decide, by decide⟩ (by decide) (by decide) (by decide)

/-- Claim C4: on a well-formed buffer, indexing by any integer frame yields
a view over a valid slot of the store (the frame access itself never
fails), and a read or write through it is never undefined behaviour: the
bounds error on the dimension index is the only failure mode. -/
theorem frame_access_total (buf : FeatureBuffer α) (frame index : Int)
    (v : α) (hwf : buf.wf) :
    (buf.getVec frame).validFor buf.m_buffer ∧
    buf.read frame index ≠ .undefined ∧
    buf.write frame index v ≠ .undefined := by
  refine ⟨getVec_validFor buf hwf frame, ?_, ?_⟩
  · by_cases h : index < 0 ∨ index ≥ buf.m_dim
    · unfold FeatureBuffer.read FeatureVec.get
      rw [if_pos (show index < 0 ∨ index ≥ (buf.getVec frame).m_dim from h)]
      simp
    · push_neg at h
      obtain ⟨h1, h2⟩ := h
      have h1 : 0 ≤ index := by omega
      have hlt := slotOffset_lt buf hwf frame index h1 h2
      rw [read_eq_value buf frame index _ h1 h2 (List.getElem?_eq_getElem hlt)]
      simp
  · by_cases h : index < 0 ∨ index ≥ buf.m_dim
    · unfold FeatureBuffer.write FeatureVec.set
      rw [if_pos (show index < 0 ∨ index ≥ (buf.getVec frame).m_dim from h)]
      simp
    · push_neg at h
      obtain ⟨h1, h2⟩ := h
      have h1 : 0 ≤ index := by omega
      rw [write_eq buf frame index v hwf h1 h2]
      simp

/-- Witness for C4 on a well-formed buffer at a negative frame and an
out-of-range index. -/
theorem frame_access_total_witness :
    ((⟨2, 3, [0, 0, 0, 0, 0, 0]⟩ : FeatureBuffer Int).getVec (-5)).validFor
      ([0, 0, 0, 0, 0, 0] : List Int) ∧
    (⟨2, 3, [0, 0, 0, 0, 0, 0]⟩ : FeatureBuffer Int).read (-5) 9 ≠ .undefined ∧
    (⟨2, 3, [0, 0, 0, 0, 0, 0]⟩ : FeatureBuffer Int).write (-5) 9 1 ≠ .undefined :=
  frame_access_total (α := Int) ⟨2, 3, [0, 0, 0, 0, 0, 0]⟩ (-5) 9 1
    ⟨by decide, by decide, by decide⟩

/-- Claim C5: after `resize(num_frames, dim)` with positive arguments the
accessors report exactly the arguments, and after a second resize with a
different (positive) shape they report only the latest call. -/
theorem resize_sets_shape [Inhabited α] (buf : FeatureBuffer α)
    (nf d nf2 d2 : Int) (h1 : 0 < nf) (h2 : 0 < d) (h3 : 0 < nf2)
    (h4 : 0 < d2) :
    ∃ b2, buf.resize nf d = some b2 ∧ b2.dim = d ∧ b2.num_frames = nf ∧
      ∃ b3, b2.resize nf2 d2 = some b3 ∧ b3.dim = d2 ∧ b3.num_frames = nf2 := by
  refine ⟨⟨d, nf, vectorResize buf.m_buffer (nf * d).toNat⟩, ?_, rfl, rfl,
    ⟨d2, nf2, vectorResize (vectorResize buf.m_buffer (nf * d).toNat)
      (nf2 * d2).toNat⟩, ?_, rfl, rfl⟩
  · unfold FeatureBuffer.resize
    rw [if_pos ⟨h1, h2⟩]
  · unfold FeatureBuffer.resize
    rw [if_pos ⟨h3, h4⟩]

/-- Witness for C5: resize to `(2, 3)` and then to `(4, 1)` from the
default buffer. -/
theorem resize_sets_shape_witness :
    ∃ b2, (FeatureBuffer.mkDefault (α := Int)).resize 2 3 = some b2 ∧
      b2.dim = 3 ∧ b2.num_frames = 2 ∧
      ∃ b3, b2.resize 4 1 = some b3 ∧ b3.dim = 1 ∧ b3.num_frames = 4 :=
  resize_sets_shape FeatureBuffer.mkDefault 2 3 4 1 (by decide) (by decide)
    (by decide) (by decide)

/-- Claim C6: the storage-length invariant
`storage.length == dim * num_frames` holds after default construction,
after every successful `resize`, and is preserved by every successful
write. -/
theorem storage_length_invariant [Inhabited α] (buf b2 b3 : FeatureBuffer α)
    (nf d frame index : Int) (v : α)
    (hres : buf.resize nf d = some b2)
    (hlen : buf.lenInv) (hw : buf.write frame index v = .value b3) :
    (FeatureBuffer.mkDefault (α := α)).lenInv ∧ b2.lenInv ∧ b3.lenInv := by
  refine ⟨by unfold FeatureBuffer.lenInv FeatureBuffer.mkDefault; simp, ?_, ?_⟩
  · unfold FeatureBuffer.resize at hres
    split at hres
    · rename_i hpos
      injection hres with hb2
      subst hb2
      unfold FeatureBuffer.lenInv
      show ((vectorResize buf.m_buffer (nf * d).toNat).length : Int) = nf * d
      rw [length_vectorResize]
      exact Int.toNat_of_nonneg (by nlinarith [hpos.1, hpos.2])
    · exact absurd hres (by simp)
  · obtain ⟨hdim, hnum, k, hk, hbuf⟩ :=
      write_value_inv buf b3 frame index v hw
    unfold FeatureBuffer.lenInv at hlen ⊢
    rw [hbuf, List.length_set, hdim, hnum]
    exact hlen

/-- Witness for C6: the default buffer, a resize to shape `(2, 2)`, and a
write on the default buffer. -/
theorem storage_length_invariant_witness :
    (FeatureBuffer.mkDefault (α := Int)).lenInv ∧
    (⟨2, 2, [0, 0, 0, 0]⟩ : FeatureBuffer Int).lenInv ∧
    (⟨1, 1, [7]⟩ : FeatureBuffer Int).lenInv :=
  storage_length_invariant ⟨1, 1, [0]⟩ ⟨2, 2, [0, 0, 0, 0]⟩ ⟨1, 1, [7]⟩
    2 2 0 0 7 (by decide) (by unfold FeatureBuffer.lenInv; decide) (by decide)

/-- Counterexample to claim C7 as stated: a shape-preserving `resize` does
not clear the stored data. Starting from the default buffer, resize to
`(2, 2)`, write 5 at `buffer[0][0]`, resize to `(2, 2)` again: the store is
unchanged and the previously written 5 is still read back, because
`std::vector::resize` to the current size keeps all elements. -/
theorem resize_same_shape_counterexample :
    ((FeatureBuffer.mkDefault (α := Int)).resize 2 2 =
      some ⟨2, 2, [0, 0, 0, 0]⟩) ∧
    ((⟨2, 2, [0, 0, 0, 0]⟩ : FeatureBuffer Int).write 0 0 5 =
      .value ⟨2, 2, [5, 0, 0, 0]⟩) ∧
    ((⟨2, 2, [5, 0, 0, 0]⟩ : FeatureBuffer Int).resize 2 2 =
      some ⟨2, 2, [5, 0, 0, 0]⟩) ∧
    ((⟨2, 2, [5, 0, 0, 0]⟩ : FeatureBuffer Int).read 0 0 = .value 5) :=
  ⟨by decide, by decide, by decide, by decide⟩

/-- Claim C7 (amended): calling `resize` with the same arguments as the
current shape is safe (the assertions pass and the backing-store resize is
invoked), and on a well-formed buffer such a shape-preserving resize
returns the buffer completely unchanged — in particular all stored data
survives it. -/
theorem resize_same_shape_preserves [Inhabited α] (buf : FeatureBuffer α)
    (hwf : buf.wf) :
    buf.resize buf.m_num_frames buf.m_dim = some buf := by
  obtain ⟨hd, hn, hl⟩ := hwf
  unfold FeatureBuffer.resize
  rw [if_pos ⟨hn, hd⟩]
  have hnn : 0 ≤ buf.m_num_frames * buf.m_dim := by positivity
  have h0 : (buf.m_num_frames * buf.m_dim).toNat = buf.m_buffer.length := by
    have h1 := Int.toNat_of_nonneg hnn
    exact_mod_cast h1.trans hl.symm
  rw [h0, vectorResize_length_self]

/-- Witness for the amended C7 on a buffer holding a written value. -/
theorem resize_same_shape_preserves_witness :
    (⟨2, 2, [5, 0, 0, 0]⟩ : FeatureBuffer Int).resize 2 2 =
      some ⟨2, 2, [5, 0, 0, 0]⟩ :=
  resize_same_shape_preserves ⟨2, 2, [5, 0, 0, 0]⟩
    ⟨by decide, by decide, by decide⟩

/-- Claim C8: `resize` with `num_frames <= 0` or `dim <= 0` hits the
assertion and halts (no buffer state is returned); under the precondition
of positive arguments the assertion branch is unreachable and `resize`
returns normally. -/
theorem resize_assert_behavior [Inhabited α] (buf : FeatureBuffer α)
    (nf d : Int) :
    (nf ≤ 0 ∨ d ≤ 0 → buf.resize nf d = none) ∧
    (0 < nf → 0 < d → ∃ b2, buf.resize nf d = some b2) := by
  constructor
  · intro h
    unfold FeatureBuffer.resize
    rw [if_neg (by omega)]
  · intro h1 h2
    refine ⟨⟨d, nf, vectorResize buf.m_buffer (nf * d).toNat⟩, ?_⟩
    unfold FeatureBuffer.resize
    rw [if_pos ⟨h1, h2⟩]

/-- Witness for C8: `resize(0, 2)` halts on the assertion, `resize(2, 2)`
returns normally. -/
theorem resize_assert_behavior_witness :
    (FeatureBuffer.mkDefault (α := Int)).resize 0 2 = none ∧
    ∃ b2, (FeatureBuffer.mkDefault (α := Int)).resize 2 2 = some b2 :=
  ⟨(resize_assert_behavior FeatureBuffer.mkDefault 0 2).1 (Or.inl (by decide)),
   (resize_assert_behavior FeatureBuffer.mkDefault 2 2).2 (by decide) (by decide)⟩

/-- Claim C9: on a well-formed buffer, writing through
`buffer[frame][index]` with `index` in `[0, dim)` succeeds, leaves the
shape fields unchanged, stores the value at the single physical position
`modulo(frame, num_frames) * dim + index`, and leaves every other store
position unchanged. -/
theorem write_single_slot (buf : FeatureBuffer α) (frame index : Int)
    (v : α) (j : Nat) (hwf : buf.wf) (hi0 : 0 ≤ index)
    (hid : index < buf.m_dim) :
    ∃ b2, buf.write frame index v = .value b2 ∧
      b2.m_dim = buf.m_dim ∧ b2.m_num_frames = buf.m_num_frames ∧
      b2.m_buffer[slotOffset buf frame index]? = some v ∧
      (j ≠ slotOffset buf frame index →
        b2.m_buffer[j]? = buf.m_buffer[j]?) := by
  refine ⟨_, write_eq buf frame index v hwf hi0 hid, rfl, rfl, ?_, ?_⟩
  · show (buf.m_buffer.set (slotOffset buf frame index) v)[slotOffset buf frame index]? =
      some v
    rw [List.getElem?_set, if_pos rfl,
      if_pos (slotOffset_lt buf hwf frame index hi0 hid)]
  · intro hj
    show (buf.m_buffer.set (slotOffset buf frame index) v)[j]? = buf.m_buffer[j]?
    rw [List.getElem?_set, if_neg (fun h => hj h.symm)]

/-- Witness for C9: writing 9 at frame 4, index 0 of a `(dim 2, frames 3)`
buffer touches physical position 2 and leaves position 3 unchanged. -/
theorem write_single_slot_witness :
    ∃ b2, (⟨2, 3, [1, 2, 3, 4, 5, 6]⟩ : FeatureBuffer Int).write 4 0 9 =
        .value b2 ∧
      b2.m_dim = 2 ∧ b2.m_num_frames = 3 ∧
      b2.m_buffer[slotOffset (⟨2, 3, [1, 2, 3, 4, 5, 6]⟩ : FeatureBuffer Int) 4 0]? =
        some 9 ∧
      (3 ≠ slotOffset (⟨2, 3, [1, 2, 3, 4, 5, 6]⟩ : FeatureBuffer Int) 4 0 →
        b2.m_buffer[(3 : Nat)]? =
          ([1, 2, 3, 4, 5, 6] : List Int)[(3 : Nat)]?) :=
  write_single_slot ⟨2, 3, [1, 2, 3, 4, 5, 6]⟩ 4 0 9 3
    ⟨by decide, by decide, by decide⟩ (by decide) (by decide)

end FeatureBufferModel
